import Mathlib

/-!
Verification of the redvox time-synchronization and data-window core.

The Python sources `redvox/common/timesync.py` and `redvox/common/data_window.py`
are shallowly embedded below.  Machine floats are modelled as exact rationals
(together with an explicit NaN marker where the code manipulates `np.nan` /
`None`), pandas dataframes as lists of rows, and the numpy/pandas operations the
code uses (`sort_values`, `append`, `np.where` filtering) as the corresponding
list operations.  Python `int()` and `round()` are embedded with their exact
semantics (truncation toward zero, banker's rounding).
-/

/-- Python `int()` on a real value: truncation toward zero. -/
def pyInt (q : ℚ) : ℤ := if q < 0 then -⌊-q⌋ else ⌊q⌋

/-- Python 3 `round()` to an integer: round half to even. -/
def pyRound (q : ℚ) : ℤ :=
  if q - ⌊q⌋ < 1/2 then ⌊q⌋
  else if q - ⌊q⌋ > 1/2 then ⌊q⌋ + 1
  else if 2 ∣ ⌊q⌋ then ⌊q⌋ else ⌊q⌋ + 1

/-- An IEEE float value as used by the timesync code: either NaN or a finite
value (modelled exactly as a rational). -/
inductive FVal where
  | nan : FVal
  | fin (q : ℚ) : FVal
deriving DecidableEq

/-- IEEE `<` on floats: any comparison involving NaN is false. -/
def FVal.flt : FVal → FVal → Bool
  | FVal.fin x, FVal.fin y => decide (x < y)
  | _, _ => false

/-- Python truthiness of an optional float (`if x:`): false for `None` and for
`0.0`; NaN is truthy. -/
def pyTruthy : Option FVal → Bool
  | none => false
  | some v => decide (v ≠ FVal.fin 0)

/-- Modelled from the spec: `date_time_utils.microseconds_to_seconds` (module
not included in the sources); all timestamps are microseconds since epoch, so
the conversion divides by 10^6. -/
def microsecondsToSeconds (t : ℚ) : ℚ := t / 1000000

/-- Modelled from the spec: `date_time_utils.seconds_to_microseconds` (module
not included in the sources); multiplies by 10^6. -/
def secondsToMicroseconds (s : ℚ) : ℚ := s * 1000000

/-- One dataframe row of a sensor table: the `timestamps` column plus the
payload columns (collapsed to a single optional value; `none` models the
`np.nan` sentinel used for synthesized rows). -/
structure Row where
  timestamps : ℚ
  payload : Option ℚ
deriving DecidableEq

/-- Ordering of rows by the `timestamps` column, as used by
`DataFrame.sort_values("timestamps")`. -/
def rowLE (a b : Row) : Prop := a.timestamps ≤ b.timestamps

instance : DecidableRel rowLE := fun a b =>
  inferInstanceAs (Decidable (a.timestamps ≤ b.timestamps))

instance : IsTotal Row rowLE := ⟨fun a b => le_total a.timestamps b.timestamps⟩

instance : IsTrans Row rowLE := ⟨fun _ _ _ h h' => le_trans h h'⟩

/-- The embedding of `DataFrame.sort_values("timestamps")`: a stable sort of
the rows by timestamp. -/
def sortRows (rows : List Row) : List Row := rows.insertionSort rowLE

/-- Embeds `data_window.create_empty_df`: builds `num_samples_to_add` rows of
NaN payload whose timestamps step away from `start_timestamp` by the sample
interval (negated when `add_to_start` is true). -/
def createEmptyDf (start_timestamp sample_interval_s : ℚ) (num_samples_to_add : ℕ)
    (add_to_start : Bool) : List Row :=
  let si := if add_to_start then -sample_interval_s else sample_interval_s
  (List.range num_samples_to_add).map
    (fun t : ℕ => ⟨start_timestamp + secondsToMicroseconds (((t : ℚ) + 1) * si), none⟩)

/-- The body of the pairwise-diff scan loop of `gap_filler` (one iteration at
`index`): if the time difference to the next sorted timestamp exceeds the gap
threshold and at least one sample is missing, synthesize the missing rows
after `ts[index]`. -/
def gapFillBody (ts : List ℚ) (sample_interval_s gap_duration_s : ℚ)
    (index : ℕ) : List Row :=
  let timeDiff := microsecondsToSeconds (ts.getD (index + 1) 0 - ts.getD index 0)
  let numNew := pyInt (timeDiff / sample_interval_s) - 1
  if timeDiff > gap_duration_s ∧ numNew > 0 then
    createEmptyDf (ts.getD index 0) sample_interval_s numNew.toNat false
  else []

/-- Recursion core of `data_window.gap_filler`.  The recursion of the source
splits the frame in half and recurses on each half; here the recursion is made
structural on a fuel argument that strictly dominates the recursion depth
(each recursive call passes a strictly shorter list, so a fuel equal to the
row count never runs out; the fuel-exhausted branch is unreachable from
`gapFiller`). -/
def gapFillerAux : ℕ → List Row → ℚ → ℚ → List Row
  | 0, _, _, _ => []
  | fuel + 1, rows, sample_interval_s, gap_duration_s =>
    if rows.isEmpty then []
    else
      let ts := (sortRows rows).map Row.timestamps
      let firstT := ts.headD 0
      let lastT := ts.getLastD 0
      let durS := microsecondsToSeconds (lastT - firstT)
      let n := rows.length
      let expected := pyInt (durS / sample_interval_s) + 1
      let gd := if gap_duration_s < sample_interval_s then sample_interval_s else gap_duration_s
      let result :=
        if (n : ℤ) < expected then
          if n < 1000 then
            rows ++ (List.range (n - 1)).flatMap (gapFillBody ts sample_interval_s gd)
          else
            gapFillerAux fuel (rows.take (n / 2)) sample_interval_s gd ++
              gapFillerAux fuel (rows.drop (n / 2)) sample_interval_s gd
        else rows
      sortRows result

/-- Embeds `data_window.gap_filler`.  The source indexes `data_time_stamps[0]`
and so raises on an empty dataframe; the empty case is modelled as returning
the empty frame (no claim touches it).  `num_points` equals the row count of
the frame since sorting preserves length.  The fuel `rows.length` strictly
dominates the recursion depth of the source's divide-and-conquer (each
recursive call passes a strictly shorter list), so the fuel-exhausted branch
of `gapFillerAux` is never reached. -/
def gapFiller (rows : List Row) (sample_interval_s gap_duration_s : ℚ) : List Row :=
  gapFillerAux rows.length rows sample_interval_s gap_duration_s

/-- The direct, non-splitting gap fill that the spec describes: the same
pairwise-diff scan as `gap_filler`, applied to the whole sequence regardless
of its size (the divide-and-conquer branch is removed). -/
def gapFillerDirect (rows : List Row) (sample_interval_s gap_duration_s : ℚ) : List Row :=
  if rows.isEmpty then []
  else
    let ts := (sortRows rows).map Row.timestamps
    let firstT := ts.headD 0
    let lastT := ts.getLastD 0
    let durS := microsecondsToSeconds (lastT - firstT)
    let n := rows.length
    let expected := pyInt (durS / sample_interval_s) + 1
    let gd := if gap_duration_s < sample_interval_s then sample_interval_s else gap_duration_s
    let result :=
      if (n : ℤ) < expected then
        rows ++ (List.range (n - 1)).flatMap (gapFillBody ts sample_interval_s gd)
      else rows
    sortRows result

/-- Embeds `data_window.data_padder`: pads the front and back of the frame out
to `expected_start` and `expected_end` with NaN rows at the sample interval.
The source indexes the first/last sorted timestamp and raises on an empty
frame; the empty case is modelled as returning the empty frame. -/
def dataPadder (expected_start expected_end : ℚ) (rows : List Row)
    (sample_interval_s : ℚ) : List Row :=
  if rows.isEmpty then []
  else
    let ts := (sortRows rows).map Row.timestamps
    let firstT := ts.headD 0
    let lastT := ts.getLastD 0
    let r1 :=
      if expected_start < firstT then
        rows ++ createEmptyDf (expected_start - secondsToMicroseconds sample_interval_s)
          sample_interval_s
          (pyInt (microsecondsToSeconds (firstT - expected_start) / sample_interval_s) + 1).toNat
          false
      else rows
    let r2 :=
      if expected_end > lastT then
        r1 ++ createEmptyDf (expected_end + secondsToMicroseconds sample_interval_s)
          sample_interval_s
          (pyInt (microsecondsToSeconds (expected_end - lastT) / sample_interval_s) + 1).toNat
          true
      else r1
    sortRows r2

/-- One time-sync exchange: the six timestamps `a1 a2 a3 b1 b2 b3` of one
round-trip probe between station clock `a` and server clock `b`. -/
structure Exchange where
  a1 : ℚ
  a2 : ℚ
  a3 : ℚ
  b1 : ℚ
  b2 : ℚ
  b3 : ℚ
deriving DecidableEq

/-- Modelled from the spec: leg-1 latency of `tri_message_stats` (module not
included in the sources); one-way delay estimated from the `a1 -> b1 -> a2`
round trip. -/
def latency1 (e : Exchange) : ℚ := ((e.b1 - e.a1) - (e.b2 - e.a2)) / 2

/-- Modelled from the spec: leg-3 latency, symmetric in the third message
(`b2 -> a2` out, `a3 -> b3` back as seen from the server clock). -/
def latency3 (e : Exchange) : ℚ := ((e.a2 - e.b2) - (e.a3 - e.b3)) / 2

/-- Modelled from the spec: leg-1 clock-offset estimate (midpoint of the two
clock differences of the first round trip). -/
def offset1 (e : Exchange) : ℚ := ((e.b1 - e.a1) + (e.b2 - e.a2)) / 2

/-- Modelled from the spec: leg-3 clock-offset estimate. -/
def offset3 (e : Exchange) : ℚ := ((e.b2 - e.a2) + (e.b3 - e.a3)) / 2

/-- Combined per-exchange latency `(latency1 + latency3) / 2` minimised by
`best_latency_index`. -/
def combinedLatency (e : Exchange) : ℚ := (latency1 e + latency3 e) / 2

/-- Placeholder exchange used as the (never hit) out-of-range default of list
indexing. -/
def exchangeDefault : Exchange := ⟨0, 0, 0, 0, 0, 0⟩

/-- Modelled from the spec: `TriMessageStats.best_latency_index` — the index
minimising the combined latency, preferring indices with nonnegative combined
latency (negative/invalid entries are only selected when no valid one
exists); ties broken by first occurrence. -/
def bestLatencyIndex (exchanges : List Exchange) : ℕ :=
  (List.range exchanges.length).foldl
    (fun best i =>
      let cb := combinedLatency (exchanges.getD best exchangeDefault)
      let ci := combinedLatency (exchanges.getD i exchangeDefault)
      if (0 ≤ ci ∧ cb < 0) ∨ ((0 ≤ ci ↔ 0 ≤ cb) ∧ ci < cb) then i else best) 0

/-- Modelled from the spec: the latency of the best exchange (better of the
two legs at the best index). -/
def tmsBestLatency (exchanges : List Exchange) : ℚ :=
  let e := exchanges.getD (bestLatencyIndex exchanges) exchangeDefault
  min (latency1 e) (latency3 e)

/-- Modelled from the spec: the clock offset of the leg providing the best
latency. -/
def tmsBestOffset (exchanges : List Exchange) : ℚ :=
  let e := exchanges.getD (bestLatencyIndex exchanges) exchangeDefault
  if latency1 e ≤ latency3 e then offset1 e else offset3 e

/-- Embeds `np.mean` on an exact-rational model of floats. -/
def npMean (xs : List ℚ) : ℚ := xs.sum / xs.length

/-- The square of `np.std` (population standard deviation).  The square root
of a rational is irrational in general, so the embedded standard-deviation
fields store the exact variance instead; the squaring map is injective on the
nonnegative values `np.std` produces, and every claim inspects these fields
only where the source writes literal constants (`np.nan`, `0`). -/
def npStdSq (xs : List ℚ) : ℚ := npMean (xs.map (fun x => (x - npMean xs) ^ 2))

/-- The fields of `timesync.TimeSyncData` that the verified claims inspect.
Optional floats are `Option FVal` (`none` models Python `None`); the
`..._std` fields hold the square of the source's `np.std` value (see
`npStdSq`).  Per-packet identity/timing fields not used by any claim
(station id, packet timestamps, durations, travel time) are omitted. -/
structure TimeSyncData where
  best_latency : Option FVal
  best_offset : FVal
  mean_latency : Option FVal
  latency_std : Option FVal
  mean_offset : Option FVal
  offset_std : Option FVal
  best_tri_msg_index : Option ℕ
  best_latency_index : Option ℕ
  sample_rate_hz : Option ℚ
  station_start_timestamp : Option ℚ
deriving DecidableEq

/-- The `TimeSyncData.__init__` defaults when no data packet is supplied. -/
def TimeSyncData.init : TimeSyncData where
  best_latency := none
  best_offset := FVal.fin 0
  mean_latency := none
  latency_std := none
  mean_offset := some (FVal.fin 0)
  offset_std := some (FVal.fin 0)
  best_tri_msg_index := none
  best_latency_index := none
  sample_rate_hz := none
  station_start_timestamp := none

/-- Embeds `TimeSyncData.get_timesync_data` followed by
`TimeSyncData._compute_tri_message_stats`.  `timesync = none` models a packet
whose `timesync` attribute is `None` (empty exchange table); the packet's
pre-populated best latency/offset are kept only when truthy (`None` and `0.0`
are falsy in Python).  On the path where the packet supplies a truthy
`best_latency` but a falsy `best_offset`, the source reads the never-assigned
attribute `self.best_offset` and raises `AttributeError`; the model collapses
that unset attribute to the default `0`, and no claim exercises that path. -/
def getTimesyncData (timesync : Option (List Exchange))
    (packet_best_latency packet_best_offset : Option FVal)
    (sample_rate_hz station_start_timestamp : Option ℚ) : TimeSyncData :=
  let exchanges := timesync.getD []
  let bl : Option FVal :=
    if pyTruthy packet_best_latency then packet_best_latency else none
  let bo : FVal :=
    if pyTruthy packet_best_offset then packet_best_offset.getD (FVal.fin 0)
    else FVal.fin 0
  if 0 < exchanges.length then
    let lats := exchanges.map latency1 ++ exchanges.map latency3
    let offs := exchanges.map offset1 ++ exchanges.map offset3
    let bli := bestLatencyIndex exchanges
    { best_latency :=
        if bl = none then some (FVal.fin (tmsBestLatency exchanges)) else bl
      best_offset :=
        if bl = none then FVal.fin (tmsBestOffset exchanges)
        else if bo = FVal.fin 0 then FVal.fin (tmsBestOffset exchanges) else bo
      mean_latency := some (FVal.fin (npMean lats))
      latency_std := some (FVal.fin (npStdSq lats))
      mean_offset := some (FVal.fin (npMean offs))
      offset_std := some (FVal.fin (npStdSq offs))
      best_tri_msg_index := some bli
      best_latency_index := some bli
      sample_rate_hz := sample_rate_hz
      station_start_timestamp := station_start_timestamp }
  else
    { best_latency := none
      best_offset := FVal.fin 0
      mean_latency := some FVal.nan
      latency_std := some FVal.nan
      mean_offset := some (FVal.fin 0)
      offset_std := some (FVal.fin 0)
      best_tri_msg_index := none
      best_latency_index := none
      sample_rate_hz := sample_rate_hz
      station_start_timestamp := station_start_timestamp }

/-- Embeds `TimeSyncAnalysis.evaluate_latencies`: starting from the current
`best_latency_index` (`init`), scan packets 1..n-1 and move the index to any
packet whose `best_latency` is not `None` and either the current best is
`None` or the new value compares `<` (IEEE float less-than) to it.  The
source raises on an empty packet list; with fewer than two packets the scan
is empty.  `evalStep` is one loop iteration: `lats` is the list of the
packets' `best_latency` values and `best` the current best index. -/
def evalStep (lats : List (Option FVal)) (best index : ℕ) : ℕ :=
  match lats.getD index none, lats.getD best none with
  | none, _ => best
  | some _, none => index
  | some v, some w => if FVal.flt v w then index else best

/-- The full scan of `TimeSyncAnalysis.evaluate_latencies` over packet indices
1 to n-1, starting from the current `best_latency_index` (`init`). -/
def evaluateLatencies (init : ℕ) (lats : List (Option FVal)) : ℕ :=
  (List.range' 1 (lats.length - 1)).foldl (evalStep lats) init

/-- Embeds `TimeSyncAnalysis.validate_sample_rate`: packets 1..n-1 are
compared against the analysis's own `sample_rate_hz` attribute; a `None` or
differing packet rate returns false.  The source raises on an empty packet
list; the scan is empty then. -/
def validateSampleRate (self_sample_rate : Option ℚ)
    (tsds : List TimeSyncData) : Bool :=
  (tsds.drop 1).all (fun t =>
    match t.sample_rate_hz with
    | none => false
    | some r => decide (some r = self_sample_rate))

/-- Embeds the `sample_rate_hz` update of
`TimeSyncAnalysis.evaluate_and_validate_data`: on successful validation the
analysis adopts packet 0's sample rate, otherwise it keeps its current
value. -/
def updatedSampleRate (self_sample_rate : Option ℚ)
    (tsds : List TimeSyncData) : Option ℚ :=
  if validateSampleRate self_sample_rate tsds then
    (tsds.headD TimeSyncData.init).sample_rate_hz
  else self_sample_rate

/-- Embeds the post-guard core of `timesync.update_evenly_sampled_time_array`
(after `validate_sensors` has passed and the supplied `time_start_array` has
been checked to have one entry per packet, so `num_files` is its length).
Builds the before/after segments around the anchor packet and concatenates
them.  The two segments are built with `np.vectorize`, which raises
`ValueError` when applied to a size-0 input (no `otypes` is set); that error
path is modelled as `none`.  The before segment has `samples_before + 1`
entries and is empty only when `samples_before` is negative; the after
segment has `samples_after` entries (`range(1, samples_after + 1)`) and is
empty whenever `samples_after` is at most 0 — in particular when the anchor
is the last packet and `num_samples` is 1. -/
def updateEvenlySampledTimeArray (sample_rate_hz num_samples : ℚ)
    (best_latency_index : ℕ) (time_start_array : List ℚ) : Option (List ℚ) :=
  let num_files := time_start_array.length
  let t_dt := 1 / sample_rate_hz
  let samples_before := pyInt ((best_latency_index : ℚ) * num_samples)
  let samples_after :=
    pyRound (((num_files : ℚ) - (best_latency_index : ℚ)) * num_samples) - 1
  let best_start_sec := time_start_array.getD best_latency_index 0
  if samples_before + 1 ≤ 0 ∨ samples_after ≤ 0 then none
  else
    let timesec_before := ((List.range (samples_before + 1).toNat).map
      (fun t : ℕ => best_start_sec - (t : ℚ) * t_dt)).reverse
    let timesec_after := (List.range' 1 samples_after.toNat).map
      (fun t : ℕ => best_start_sec + (t : ℚ) * t_dt)
    some (timesec_before ++ timesec_after)

/-- A station as seen by the `DataWindow.read_data` station loop.  The body of
work done to a station with audio (timestamp correction, packet gap
detection, truncation, per-sensor gap fill and padding, metadata update) is
abstracted into the `processed` flag; the claims verified here concern which
stations are processed and which are removed. -/
structure Station where
  sid : String
  hasAudio : Bool
  processed : Bool
deriving DecidableEq

/-- Embeds the per-station loop of `DataWindow.read_data`: stations are
visited in order; a station with audio is fully processed; a station without
audio is warned about, its id appended to `ids_to_pop` and — because the
source executes `break`, not `continue` — the loop exits, leaving it and all
later stations in place unprocessed.  Returns the station list as left by the
loop and the collected `ids_to_pop`. -/
def processStations : List Station → List Station × List String
  | [] => ([], [])
  | s :: rest =>
    if s.hasAudio then
      let r := processStations rest
      ({ s with processed := true } :: r.1, r.2)
    else
      (s :: rest, [s.sid])

deriving instance DecidableEq for Except

/-- Embeds `DataWindow.read_data` after the external
`read_all_in_dir` load returned `stations`: the id-presence warning loop
iterates `self.station_ids`, so a `None` filter raises `TypeError` before any
station is processed; otherwise the station loop runs and the stations whose
ids were collected in `ids_to_pop` are removed at the end. -/
def readData (station_ids : Option (List String)) (stations : List Station) :
    Except String (List Station) :=
  match station_ids with
  | none => Except.error "TypeError: NoneType object is not iterable"
  | some _ =>
    let r := processStations stations
    Except.ok (r.1.filter (fun s => decide (s.sid ∉ r.2)))

/-- The `first_data_timestamp` extraction of `data_padder`/`gap_filler`: the
first entry of the sorted timestamp column. -/
def firstDataTimestamp (rows : List Row) : ℚ :=
  ((sortRows rows).map Row.timestamps).headD 0

/-- The `last_data_timestamp` extraction of `data_padder`/`gap_filler`: the
last entry of the sorted timestamp column. -/
def lastDataTimestamp (rows : List Row) : ℚ :=
  ((sortRows rows).map Row.timestamps).getLastD 0


/-- Timestamp pattern of the C2 boundary-gap input: 1001 samples at a one
second interval with a ten second jump between sample 499 and sample 500 —
exactly at the divide-and-conquer split point of a 1001-row frame. -/
def c2time (i : ℕ) : ℚ := (if i < 500 then (i : ℚ) else (i : ℚ) + 10) * 1000000

/-- The C2 input frame: 1001 rows whose timestamps follow `c2time`. -/
def c2rows : List Row :=
  (List.range 1001).map (fun i : ℕ => (⟨c2time i, none⟩ : Row))


section ClaimTheorems

attribute [local semireducible] Rat.add Rat.mul Rat.sub Rat.inv

/-- C10: for a `DataWindow` constructed with the default `station_ids = None`,
`read_data` — invoked automatically by `__post_init__` when `stations` is
`None` — raises a `TypeError` when it iterates `self.station_ids`, so
construction never completes, regardless of what stations the input directory
yielded. -/
theorem readData_none_station_ids_raises (stations : List Station) :
    readData none stations =
      Except.error "TypeError: NoneType object is not iterable" := rfl

/-- C4: evaluating `read_data`'s station loop at two concrete inputs shows the
`break` on a station without audio aborting the loop: in the first run the
audio-bearing sibling station `s2` survives unprocessed (neither corrected nor
truncated nor gap-filled nor padded), and in the second run the audio-less
station `s3`, which sits after the first audio-less station `s2`, is neither
warned about nor removed — contradicting the claim that processing continues
for siblings and that every station lacking audio is removed. -/
theorem readData_break_behavior :
    readData (some ["s1", "s2"])
        [⟨"s1", false, false⟩, ⟨"s2", true, false⟩] =
      Except.ok [⟨"s2", true, false⟩] ∧
    readData (some ["s1", "s2", "s3"])
        [⟨"s1", true, false⟩, ⟨"s2", false, false⟩, ⟨"s3", false, false⟩] =
      Except.ok [⟨"s1", true, true⟩, ⟨"s3", false, false⟩] := by decide

/-- C3 counterexample: a packet with an empty exchange table yields
`mean_offset = 0` and `offset_std = 0`, not NaN as the claim states for the
offset statistics. -/
theorem getTimesyncData_zero_exchanges_offset_stats_not_nan :
    (getTimesyncData none none none none none).mean_offset = some (FVal.fin 0) ∧
    (getTimesyncData none none none none none).offset_std = some (FVal.fin 0) ∧
    (getTimesyncData none none none none none).mean_offset ≠ some FVal.nan ∧
    (getTimesyncData none none none none none).offset_std ≠ some FVal.nan := by
  decide

/-- C3 amended: for every packet whose exchange table has zero rows (a `None`
timesync payload or an empty exchange list), the constructed TimeSyncData has
`best_latency = None`, `best_offset = 0`, mean and standard deviation of the
latency equal to NaN, and mean and standard deviation of the offset equal to
`0`. -/
theorem getTimesyncData_zero_exchanges (timesync : Option (List Exchange))
    (pbl pbo : Option FVal) (sr sst : Option ℚ)
    (hz : timesync.getD [] = []) :
    (getTimesyncData timesync pbl pbo sr sst).best_latency = none ∧
    (getTimesyncData timesync pbl pbo sr sst).best_offset = FVal.fin 0 ∧
    (getTimesyncData timesync pbl pbo sr sst).mean_latency = some FVal.nan ∧
    (getTimesyncData timesync pbl pbo sr sst).latency_std = some FVal.nan ∧
    (getTimesyncData timesync pbl pbo sr sst).mean_offset = some (FVal.fin 0) ∧
    (getTimesyncData timesync pbl pbo sr sst).offset_std = some (FVal.fin 0) := by
  simp [getTimesyncData, hz]

/-- Closed witness for the C3 amended theorem at a concrete zero-exchange
packet carrying pre-populated best values. -/
theorem getTimesyncData_zero_exchanges_witness :
    (getTimesyncData (some []) (some (FVal.fin 5)) (some (FVal.fin 7))
        (some 800) none).best_latency = none ∧
    (getTimesyncData (some []) (some (FVal.fin 5)) (some (FVal.fin 7))
        (some 800) none).best_offset = FVal.fin 0 ∧
    (getTimesyncData (some []) (some (FVal.fin 5)) (some (FVal.fin 7))
        (some 800) none).mean_latency = some FVal.nan ∧
    (getTimesyncData (some []) (some (FVal.fin 5)) (some (FVal.fin 7))
        (some 800) none).latency_std = some FVal.nan ∧
    (getTimesyncData (some []) (some (FVal.fin 5)) (some (FVal.fin 7))
        (some 800) none).mean_offset = some (FVal.fin 0) ∧
    (getTimesyncData (some []) (some (FVal.fin 5)) (some (FVal.fin 7))
        (some 800) none).offset_std = some (FVal.fin 0) :=
  getTimesyncData_zero_exchanges (some []) (some (FVal.fin 5))
    (some (FVal.fin 7)) (some 800) none rfl

/-- C6 counterexample: a packet carrying explicit non-null, non-zero
`best_latency = 5` and `best_offset = 7` but an empty exchange table does NOT
keep those values — the zero-exchange branch overwrites them with `None` and
`0`. -/
theorem getTimesyncData_discards_packet_values_without_exchanges :
    (getTimesyncData (some []) (some (FVal.fin 5)) (some (FVal.fin 7))
        none none).best_latency ≠ some (FVal.fin 5) ∧
    (getTimesyncData (some []) (some (FVal.fin 5)) (some (FVal.fin 7))
        none none).best_offset ≠ FVal.fin 7 := by decide

/-- C6 amended: for every packet with at least one time-sync exchange that
carries an explicit non-null, non-zero-default `best_latency` and
`best_offset`, the constructed TimeSyncData keeps those packet-supplied
values instead of the recomputed tri-message values. -/
theorem getTimesyncData_keeps_packet_values (exchanges : List Exchange)
    (l o : FVal) (sr sst : Option ℚ)
    (hne : exchanges ≠ []) (hl : l ≠ FVal.fin 0) (ho : o ≠ FVal.fin 0) :
    (getTimesyncData (some exchanges) (some l) (some o) sr sst).best_latency =
      some l ∧
    (getTimesyncData (some exchanges) (some l) (some o) sr sst).best_offset =
      o := by
  have hlen : 0 < exchanges.length := List.length_pos.mpr hne
  simp [getTimesyncData, pyTruthy, hl, ho, hlen]

/-- Closed witness for the C6 amended theorem at a concrete one-exchange
packet. -/
theorem getTimesyncData_keeps_packet_values_witness :
    (getTimesyncData (some [⟨1, 9, 17, 4, 12, 20⟩]) (some (FVal.fin 5))
        (some (FVal.fin 7)) (some 800) none).best_latency = some (FVal.fin 5) ∧
    (getTimesyncData (some [⟨1, 9, 17, 4, 12, 20⟩]) (some (FVal.fin 5))
        (some (FVal.fin 7)) (some 800) none).best_offset = FVal.fin 7 :=
  getTimesyncData_keeps_packet_values [⟨1, 9, 17, 4, 12, 20⟩]
    (FVal.fin 5) (FVal.fin 7) (some 800) none (by decide) (by decide) (by decide)

/-- C7 counterexample: an analysis built by two `add_timesync_data` calls of
default-constructed `TimeSyncData` (sample rate `None`): after the first add
the analysis adopts packet 0's `None` sample rate, and the second validation
then returns false although every packet's sample rate equals the first
packet's. -/
theorem validateSampleRate_counterexample :
    validateSampleRate (updatedSampleRate (some 0) [TimeSyncData.init])
        [TimeSyncData.init, TimeSyncData.init] = false ∧
    ∀ t ∈ [TimeSyncData.init, TimeSyncData.init],
      t.sample_rate_hz =
        ([TimeSyncData.init,
          TimeSyncData.init].headD TimeSyncData.init).sample_rate_hz := by
  decide

/-- C7 amended: for every TimeSyncAnalysis with at least one packet whose
`sample_rate_hz` field equals the first packet's (non-None) sample rate and
whose packets all have non-None sample rates, `validate_sample_rate` returns
false iff at least one packet's sample rate differs from the first packet's. -/
theorem validateSampleRate_iff_first (tsds : List TimeSyncData) (r : ℚ)
    (hhead : (tsds.headD TimeSyncData.init).sample_rate_hz = some r)
    (hall : ∀ t ∈ tsds, (t.sample_rate_hz).isSome = true) :
    validateSampleRate (some r) tsds = false ↔
      ∃ t ∈ tsds, t.sample_rate_hz ≠
        (tsds.headD TimeSyncData.init).sample_rate_hz := by
  cases tsds with
  | nil => simp [TimeSyncData.init] at hhead
  | cons hd tl =>
    simp only [List.headD_cons] at hhead ⊢
    rw [hhead]
    simp only [validateSampleRate, List.drop_succ_cons, List.drop_zero]
    constructor
    · intro h
      obtain ⟨x, hxtl, hpx⟩ := List.all_eq_false.mp h
      refine ⟨x, List.mem_cons_of_mem hd hxtl, ?_⟩
      obtain ⟨rx, hrx⟩ := Option.isSome_iff_exists.mp
        (hall x (List.mem_cons_of_mem hd hxtl))
      rw [hrx] at hpx ⊢
      simpa using hpx
    · rintro ⟨x, hx, hne⟩
      rcases List.mem_cons.mp hx with rfl | hxtl
      · exact absurd hhead hne
      · refine List.all_eq_false.mpr ⟨x, hxtl, ?_⟩
        obtain ⟨rx, hrx⟩ := Option.isSome_iff_exists.mp (hall x hx)
        rw [hrx] at hne ⊢
        simpa using hne

/-- Closed witness for the C7 amended theorem at a concrete two-packet
analysis with differing sample rates. -/
theorem validateSampleRate_iff_first_witness :
    validateSampleRate (some 5)
        [{ TimeSyncData.init with sample_rate_hz := some 5 },
         { TimeSyncData.init with sample_rate_hz := some 6 }] = false ↔
      ∃ t ∈ [{ TimeSyncData.init with sample_rate_hz := some 5 },
             { TimeSyncData.init with sample_rate_hz := some 6 }],
        t.sample_rate_hz ≠
          ([{ TimeSyncData.init with sample_rate_hz := some 5 },
            { TimeSyncData.init with sample_rate_hz := some 6 }].headD
              TimeSyncData.init).sample_rate_hz :=
  validateSampleRate_iff_first _ 5 (by decide) (by decide)

/-- C1 counterexample: with packet latencies `[5, -3]`, `evaluate_latencies`
starting from the default index 0 selects index 1, whose `best_latency` is
negative, although packet 0 carries a valid (non-null, nonnegative, non-NaN)
latency. -/
theorem evaluateLatencies_claim_counterexample :
    evaluateLatencies 0 [some (FVal.fin 5), some (FVal.fin (-3))] = 1 ∧
    [some (FVal.fin 5), some (FVal.fin (-3))].getD
      (evaluateLatencies 0 [some (FVal.fin 5), some (FVal.fin (-3))]) none =
        some (FVal.fin (-3)) := by decide

/-- Fold invariant of the `evaluate_latencies` scan: after processing indices
1..m the running index is at most m, is `None`-valued only when every latency
up to m is `None`, and otherwise holds a minimal latency among indices
0..m (in the absence of NaN values). -/
theorem evaluateLatencies_invariant (lats : List (Option FVal))
    (hnonan : ∀ i, i < lats.length → lats.getD i none ≠ some FVal.nan) :
    ∀ m, m < lats.length →
      ((List.range' 1 m).foldl (evalStep lats) 0 ≤ m ∧
       (lats.getD ((List.range' 1 m).foldl (evalStep lats) 0) none = none →
         ∀ i, i ≤ m → lats.getD i none = none) ∧
       (∀ q : ℚ,
         lats.getD ((List.range' 1 m).foldl (evalStep lats) 0) none =
           some (FVal.fin q) →
         ∀ i, i ≤ m → ∀ p : ℚ,
           lats.getD i none = some (FVal.fin p) → q ≤ p)) := by
  intro m
  induction m with
  | zero =>
    intro _
    have hz : (List.range' 1 0).foldl (evalStep lats) 0 = 0 := rfl
    rw [hz]
    refine ⟨le_refl 0, ?_, ?_⟩
    · intro h i hi
      interval_cases i
      exact h
    · intro q hq i hi p hp
      interval_cases i
      rw [hq] at hp
      simp only [Option.some.injEq, FVal.fin.injEq] at hp
      exact le_of_eq hp
  | succ m ih =>
    intro hm
    have hm' : m < lats.length := Nat.lt_of_succ_lt hm
    obtain ⟨ihA, ihB, ihC⟩ := ih hm'
    have hconcat : List.range' 1 (m + 1) = List.range' 1 m ++ [m + 1] := by
      have := @List.range'_concat 1 1 m
      simpa [Nat.add_comm] using this
    rw [hconcat, List.foldl_concat]
    set r := (List.range' 1 m).foldl (evalStep lats) 0 with hr
    have hstep : ∀ i, i ≤ m + 1 → i = m + 1 ∨ i ≤ m := by omega
    rcases h1 : lats.getD (m + 1) none with _ | v
    · have hev : evalStep lats r (m + 1) = r := by
        rcases h2 : lats.getD r none with _ | w <;>
          simp only [evalStep, h1, h2]
      rw [hev]
      refine ⟨le_trans ihA (Nat.le_succ m), ?_, ?_⟩
      · intro h i hi
        rcases hstep i hi with rfl | hi'
        · exact h1
        · exact ihB h i hi'
      · intro q hq i hi p hp
        rcases hstep i hi with rfl | hi'
        · rw [h1] at hp
          exact absurd hp (by simp)
        · exact ihC q hq i hi' p hp
    · rcases h2 : lats.getD r none with _ | w
      · have hev : evalStep lats r (m + 1) = m + 1 := by
          simp only [evalStep, h1, h2]
        rw [hev]
        refine ⟨le_refl _, ?_, ?_⟩
        · intro h
          rw [h1] at h
          exact absurd h (by simp)
        · intro q hq i hi p hp
          rw [h1] at hq
          rcases hstep i hi with rfl | hi'
          · rw [h1] at hp
            simp only [Option.some.injEq] at hq hp
            rw [hq] at hp
            simp only [FVal.fin.injEq] at hp
            exact le_of_eq hp
          · exact absurd hp (by rw [ihB h2 i hi']; simp)
      · have hv : ∃ qv : ℚ, v = FVal.fin qv := by
          have hnn := hnonan (m + 1) (by omega)
          rw [h1] at hnn
          cases v with
          | nan => exact (by simpa using hnn : False).elim
          | fin qv => exact ⟨qv, rfl⟩
        have hw : ∃ qw : ℚ, w = FVal.fin qw := by
          have hnn := hnonan r (by omega)
          rw [h2] at hnn
          cases w with
          | nan => exact (by simpa using hnn : False).elim
          | fin qw => exact ⟨qw, rfl⟩
        obtain ⟨qv, rfl⟩ := hv
        obtain ⟨qw, rfl⟩ := hw
        by_cases hf : qv < qw
        · have hev : evalStep lats r (m + 1) = m + 1 := by
            simp only [evalStep, h1, h2, FVal.flt]
            simp [hf]
          rw [hev]
          refine ⟨le_refl _, ?_, ?_⟩
          · intro h
            rw [h1] at h
            exact absurd h (by simp)
          · intro q hq i hi p hp
            rw [h1] at hq
            simp only [Option.some.injEq, FVal.fin.injEq] at hq
            subst hq
            rcases hstep i hi with rfl | hi'
            · rw [h1] at hp
              simp only [Option.some.injEq, FVal.fin.injEq] at hp
              exact le_of_eq hp
            · have := ihC qw h2 i hi' p hp
              linarith
        · have hev : evalStep lats r (m + 1) = r := by
            simp only [evalStep, h1, h2, FVal.flt]
            simp [hf]
          rw [hev]
          refine ⟨le_trans ihA (Nat.le_succ m), ?_, ?_⟩
          · intro h
            rw [h2] at h
            exact absurd h (by simp)
          · intro q hq i hi p hp
            rw [h2] at hq
            simp only [Option.some.injEq, FVal.fin.injEq] at hq
            subst hq
            rcases hstep i hi with rfl | hi'
            · rw [h1] at hp
              simp only [Option.some.injEq, FVal.fin.injEq] at hp
              rw [← hp]
              linarith
            · exact ihC qw h2 i hi' p hp

/-- C1 amended: starting from the initial index 0 and in the absence of NaN
latencies, if any packet has a non-None `best_latency` then after
`evaluate_latencies` the selected index is in range and holds a non-None
`best_latency` that is less than or equal to every non-None `best_latency` in
the sequence; negative latencies participate and may be selected (see the
counterexample), so the selected latency is minimal but not necessarily
nonnegative. -/
theorem evaluateLatencies_selects_min (lats : List (Option FVal))
    (hnonan : ∀ i, i < lats.length → lats.getD i none ≠ some FVal.nan)
    (hsome : ∃ i, i < lats.length ∧ (lats.getD i none).isSome = true) :
    evaluateLatencies 0 lats < lats.length ∧
    ∃ q : ℚ, lats.getD (evaluateLatencies 0 lats) none = some (FVal.fin q) ∧
      ∀ i, i < lats.length → ∀ p : ℚ,
        lats.getD i none = some (FVal.fin p) → q ≤ p := by
  obtain ⟨j, hj, hjs⟩ := hsome
  have hn : 0 < lats.length := lt_of_le_of_lt (Nat.zero_le j) hj
  have hm : lats.length - 1 < lats.length := by omega
  obtain ⟨hA, hB, hC⟩ := evaluateLatencies_invariant lats hnonan (lats.length - 1) hm
  have heval : evaluateLatencies 0 lats =
      (List.range' 1 (lats.length - 1)).foldl (evalStep lats) 0 := rfl
  rw [heval]
  set r := (List.range' 1 (lats.length - 1)).foldl (evalStep lats) 0 with hrdef
  refine ⟨by omega, ?_⟩
  rcases h : lats.getD r none with _ | v
  · have hnone := hB h j (by omega)
    rw [hnone] at hjs
    simp at hjs
  · have hvfin : ∃ q : ℚ, v = FVal.fin q := by
      have := hnonan r (by omega)
      rw [h] at this
      cases v with
      | nan => exact (by simpa using this : False).elim
      | fin q => exact ⟨q, rfl⟩
    obtain ⟨q, rfl⟩ := hvfin
    exact ⟨q, rfl, fun i hi p hp => hC q h i (by omega) p hp⟩

/-- Closed witness for the C1 amended theorem at a concrete two-packet
latency list. -/
theorem evaluateLatencies_selects_min_witness :
    evaluateLatencies 0 [some (FVal.fin 5), some (FVal.fin 3)] <
      [some (FVal.fin 5), some (FVal.fin 3)].length ∧
    ∃ q : ℚ, [some (FVal.fin 5), some (FVal.fin 3)].getD
        (evaluateLatencies 0 [some (FVal.fin 5), some (FVal.fin 3)]) none =
          some (FVal.fin q) ∧
      ∀ i, i < [some (FVal.fin 5), some (FVal.fin 3)].length → ∀ p : ℚ,
        [some (FVal.fin 5), some (FVal.fin 3)].getD i none =
          some (FVal.fin p) → q ≤ p :=
  evaluateLatencies_selects_min [some (FVal.fin 5), some (FVal.fin 3)]
    (by decide) ⟨0, by decide⟩

/-- Indexing a mapped range: `getD` below the length evaluates the function. -/
theorem mapRange_getD (f : ℕ → ℚ) (n i : ℕ) (hi : i < n) (d : ℚ) :
    ((List.range n).map f).getD i d = f i := by
  rw [List.getD_eq_getElem?_getD, List.getElem?_map, List.getElem?_range hi]
  rfl

/-- Head of a mapped nonempty range. -/
theorem mapRange_headD (f : ℕ → ℚ) (n : ℕ) (hn : 0 < n) (d : ℚ) :
    ((List.range n).map f).headD d = f 0 := by
  obtain ⟨m, rfl⟩ := Nat.exists_eq_succ_of_ne_zero (Nat.pos_iff_ne_zero.mp hn)
  rw [List.range_succ_eq_map]
  rfl

/-- Last element of a mapped nonempty range. -/
theorem mapRange_getLastD (f : ℕ → ℚ) (n : ℕ) (hn : 0 < n) (d : ℚ) :
    ((List.range n).map f).getLastD d = f (n - 1) := by
  obtain ⟨m, rfl⟩ := Nat.exists_eq_succ_of_ne_zero (Nat.pos_iff_ne_zero.mp hn)
  rw [List.range_succ]
  simp only [List.map_append, List.map_cons, List.map_nil]
  rw [List.getLastD_eq_getLast?, List.getLast?_concat]
  rfl

/-- A row list whose timestamp column is a monotone function of the row index
is sorted by timestamps. -/
theorem sortedRows_of_mono (rows : List Row) (g : ℕ → ℚ)
    (hmono : ∀ i j, i < j → g i ≤ g j)
    (hts : rows.map Row.timestamps = (List.range rows.length).map g) :
    List.Sorted rowLE rows := by
  have h1 : List.Pairwise (· ≤ ·) (rows.map Row.timestamps) := by
    rw [hts, List.pairwise_map]
    exact (List.pairwise_lt_range rows.length).imp (fun hij => hmono _ _ hij)
  rw [List.pairwise_map] at h1
  exact h1

/-- Sorting a sorted row list is the identity. -/
theorem sortRows_sorted_eq (rows : List Row) (h : List.Sorted rowLE rows) :
    sortRows rows = rows :=
  h.insertionSort_eq

/-- Sorting does not change the number of rows satisfying a predicate. -/
theorem filter_length_sortRows (p : Row → Bool) (l : List Row) :
    ((sortRows l).filter p).length = (l.filter p).length :=
  ((List.perm_insertionSort rowLE l).filter p).length_eq

/-- The head of a sorted row list's timestamp column bounds every member's
timestamp from below. -/
theorem sorted_headD_le (s : List Row) (hs : List.Sorted rowLE s) (r : Row)
    (hr : r ∈ s) : (s.map Row.timestamps).headD 0 ≤ r.timestamps := by
  cases s with
  | nil => cases hr
  | cons a l =>
    rcases List.mem_cons.mp hr with rfl | hrl
    · exact le_refl _
    · exact (List.sorted_cons.mp hs).1 r hrl

/-- The last entry of a sorted row list's timestamp column bounds every
member's timestamp from above. -/
theorem sorted_le_getLastD (s : List Row) (hs : List.Sorted rowLE s) :
    ∀ r ∈ s, r.timestamps ≤ (s.map Row.timestamps).getLastD 0 := by
  induction s with
  | nil => intro r hr; cases hr
  | cons a l ih =>
    intro r hr
    cases l with
    | nil =>
      rcases List.mem_cons.mp hr with rfl | h
      · exact le_refl _
      · cases h
    | cons b m =>
      have hlast : ((a :: b :: m).map Row.timestamps).getLastD 0 =
          ((b :: m).map Row.timestamps).getLastD 0 := by
        simp [List.getLastD_eq_getLast?, List.getLast?]
      rw [hlast]
      rcases List.mem_cons.mp hr with rfl | hrl
      · exact le_trans ((List.sorted_cons.mp hs).1 b (by simp))
          (ih (List.sorted_cons.mp hs).2 b (by simp))
      · exact ih (List.sorted_cons.mp hs).2 r hrl

/-- A flatMap over an index range in which only one index produces output
collapses to that index's output. -/
theorem flatMap_range_single (f : ℕ → List Row) (n j : ℕ) (hj : j < n)
    (h : ∀ i, i < n → i ≠ j → f i = []) : (List.range n).flatMap f = f j := by
  induction n with
  | zero => omega
  | succ m ih =>
    rw [List.range_succ, List.flatMap_append]
    rcases Nat.lt_succ_iff_lt_or_eq.mp hj with hjm | rfl
    · rw [ih hjm (fun i hi hij => h i (Nat.lt_succ_of_lt hi) hij),
        List.flatMap_cons, h m (Nat.lt_succ_self m) (by omega)]
      simp
    · rw [List.flatMap_eq_nil_iff.mpr
        (fun x hx => h x (Nat.lt_succ_of_lt (List.mem_range.mp hx))
          (Nat.ne_of_lt (List.mem_range.mp hx)))]
      simp

/-- Dropping from a range leaves a `range'`. -/
theorem drop_range_eq (m n : ℕ) :
    (List.range n).drop m = List.range' m (n - m) := by
  apply List.ext_getElem <;> simp [List.getElem_range']

/-- `pyInt` of a natural number. -/
theorem pyInt_natCast (n : ℕ) : pyInt (n : ℚ) = n := by
  rw [pyInt, if_neg (not_lt.mpr (by positivity))]
  exact Int.floor_natCast n

/-- `pyInt` agrees with the floor on nonnegative arguments. -/
theorem pyInt_of_nonneg (q : ℚ) (h : 0 ≤ q) : pyInt q = ⌊q⌋ := by
  rw [pyInt, if_neg (not_lt.mpr h)]

/-- `pyRound` of a natural number. -/
theorem pyRound_natCast (n : ℕ) : pyRound (n : ℚ) = n := by
  rw [pyRound]
  rw [Int.floor_natCast]
  norm_num

/-- The no-gap case of the gap filler: a nonempty frame whose timestamps form
an arithmetic progression at exactly the sample interval (in microseconds) is
returned unchanged, for any gap threshold and any fuel. -/
theorem gapFillerAux_progression (fuel : ℕ) (rows : List Row) (t0 si gd : ℚ)
    (hsi : 0 < si)
    (hts : rows.map Row.timestamps =
      (List.range rows.length).map (fun i : ℕ => t0 + (i : ℚ) * (si * 1000000)))
    (hne : rows ≠ []) :
    gapFillerAux (fuel + 1) rows si gd = rows := by
  have hn : 0 < rows.length := List.length_pos.mpr hne
  have hmono : ∀ i j : ℕ, i < j →
      t0 + (i : ℚ) * (si * 1000000) ≤ t0 + (j : ℚ) * (si * 1000000) := by
    intro i j hij
    have hle : (i : ℚ) ≤ (j : ℚ) := by exact_mod_cast le_of_lt hij
    nlinarith
  have hsorted : List.Sorted rowLE rows := sortedRows_of_mono rows _ hmono hts
  have hsort : sortRows rows = rows := sortRows_sorted_eq rows hsorted
  have hts' : (sortRows rows).map Row.timestamps =
      (List.range rows.length).map (fun i : ℕ => t0 + (i : ℚ) * (si * 1000000)) := by
    rw [hsort, hts]
  have hhead : ((sortRows rows).map Row.timestamps).headD 0 = t0 := by
    rw [hts', mapRange_headD _ _ hn]
    norm_num
  have hlast : ((sortRows rows).map Row.timestamps).getLastD 0 =
      t0 + ((rows.length - 1 : ℕ) : ℚ) * (si * 1000000) := by
    rw [hts', mapRange_getLastD _ _ hn]
  have harg : microsecondsToSeconds
      ((t0 + ((rows.length - 1 : ℕ) : ℚ) * (si * 1000000)) - t0) / si =
      ((rows.length - 1 : ℕ) : ℚ) := by
    have hsine : si ≠ 0 := ne_of_gt hsi
    rw [microsecondsToSeconds]
    have hx : t0 + ((rows.length - 1 : ℕ) : ℚ) * (si * 1000000) - t0 =
        ((rows.length - 1 : ℕ) : ℚ) * si * 1000000 := by ring
    rw [hx, mul_div_assoc, div_self (by norm_num), mul_one, mul_div_assoc,
      div_self hsine, mul_one]
  have hexp : ¬ ((rows.length : ℤ) <
      pyInt (microsecondsToSeconds
        (((sortRows rows).map Row.timestamps).getLastD 0 -
          ((sortRows rows).map Row.timestamps).headD 0) / si) + 1) := by
    rw [hhead, hlast, harg, pyInt_natCast]
    omega
  rcases rows with _ | ⟨hd, tl⟩
  · exact absurd rfl hne
  · simp only [gapFillerAux, List.isEmpty_cons, Bool.false_eq_true,
      if_false]
    rw [if_neg (by exact_mod_cast hexp)]
    exact hsort


/-- C8: for every nonempty dataframe whose timestamps are already evenly
spaced at `sample_interval_s` (an arithmetic progression with step exactly
the sample interval in microseconds), `gap_filler` returns the dataframe
unchanged, and applying it twice at that interval yields a series identical
to applying it once (and identical to the input). -/
theorem gapFiller_idempotent (rows : List Row) (t0 si gd : ℚ) (hsi : 0 < si)
    (hts : rows.map Row.timestamps =
      (List.range rows.length).map (fun i : ℕ => t0 + (i : ℚ) * (si * 1000000)))
    (hne : rows ≠ []) :
    gapFiller rows si gd = rows ∧
    gapFiller (gapFiller rows si gd) si gd = gapFiller rows si gd := by
  have h1 : gapFiller rows si gd = rows := by
    obtain ⟨m, hm⟩ : ∃ m, rows.length = m + 1 := by
      have := List.length_pos.mpr hne
      exact ⟨rows.length - 1, by omega⟩
    rw [gapFiller, hm]
    exact gapFillerAux_progression m rows t0 si gd hsi hts hne
  refine ⟨h1, ?_⟩
  rw [h1]
  exact h1

/-- Closed witness for the C8 theorem at a concrete three-row evenly sampled
frame (one second interval). -/
theorem gapFiller_idempotent_witness :
    gapFiller [⟨0, some 1⟩, ⟨1000000, some 2⟩, ⟨2000000, none⟩] 1 (1/4) =
      [⟨0, some 1⟩, ⟨1000000, some 2⟩, ⟨2000000, none⟩] ∧
    gapFiller (gapFiller [⟨0, some 1⟩, ⟨1000000, some 2⟩, ⟨2000000, none⟩]
        1 (1/4)) 1 (1/4) =
      gapFiller [⟨0, some 1⟩, ⟨1000000, some 2⟩, ⟨2000000, none⟩] 1 (1/4) :=
  gapFiller_idempotent [⟨0, some 1⟩, ⟨1000000, some 2⟩, ⟨2000000, none⟩]
    0 1 (1/4) (by norm_num) (by decide) (by decide)

/-- Every row of the front padding synthesized by `data_padder` has a
timestamp strictly below the first data timestamp, provided the sample
interval does not exactly divide the front padding span. -/
theorem front_pad_lt (e1 F si : ℚ) (hsi : 0 < si) (he : e1 < F)
    (hdiv : (⌊microsecondsToSeconds (F - e1) / si⌋ : ℚ) * si <
      microsecondsToSeconds (F - e1)) :
    ∀ x ∈ createEmptyDf (e1 - secondsToMicroseconds si) si
        (pyInt (microsecondsToSeconds (F - e1) / si) + 1).toNat false,
      x.timestamps < F := by
  intro x hx
  obtain ⟨i, hi, rfl⟩ := List.mem_map.mp hx
  have hi' := List.mem_range.mp hi
  have hd0 : 0 ≤ microsecondsToSeconds (F - e1) / si := by
    rw [microsecondsToSeconds]
    exact div_nonneg (div_nonneg (by linarith) (by norm_num)) (le_of_lt hsi)
  have hpy : pyInt (microsecondsToSeconds (F - e1) / si) =
      ⌊microsecondsToSeconds (F - e1) / si⌋ := pyInt_of_nonneg _ hd0
  have hfl0 : 0 ≤ ⌊microsecondsToSeconds (F - e1) / si⌋ :=
    Int.floor_nonneg.mpr hd0
  rw [hpy] at hi'
  have hile : (i : ℤ) ≤ ⌊microsecondsToSeconds (F - e1) / si⌋ := by omega
  have hileq : (i : ℚ) ≤ (⌊microsecondsToSeconds (F - e1) / si⌋ : ℚ) := by
    exact_mod_cast hile
  have hsis : (i : ℚ) * si < microsecondsToSeconds (F - e1) :=
    lt_of_le_of_lt (mul_le_mul_of_nonneg_right hileq (le_of_lt hsi)) hdiv
  have hms : microsecondsToSeconds (F - e1) = (F - e1) / 1000000 := rfl
  rw [hms] at hsis
  simp only [createEmptyDf, Bool.false_eq_true, if_false, secondsToMicroseconds]
  have : (i : ℚ) * si * 1000000 < F - e1 := by
    have h6 : (0 : ℚ) < 1000000 := by norm_num
    calc (i : ℚ) * si * 1000000 < ((F - e1) / 1000000) * 1000000 := by
          exact mul_lt_mul_of_pos_right hsis h6
      _ = F - e1 := by field_simp
  nlinarith

/-- Every row of the back padding synthesized by `data_padder` has a
timestamp strictly above the last data timestamp, provided the sample
interval does not exactly divide the back padding span. -/
theorem end_pad_gt (e2 L si : ℚ) (hsi : 0 < si) (he : L < e2)
    (hdiv : (⌊microsecondsToSeconds (e2 - L) / si⌋ : ℚ) * si <
      microsecondsToSeconds (e2 - L)) :
    ∀ x ∈ createEmptyDf (e2 + secondsToMicroseconds si) si
        (pyInt (microsecondsToSeconds (e2 - L) / si) + 1).toNat true,
      L < x.timestamps := by
  intro x hx
  obtain ⟨i, hi, rfl⟩ := List.mem_map.mp hx
  have hi' := List.mem_range.mp hi
  have hd0 : 0 ≤ microsecondsToSeconds (e2 - L) / si := by
    rw [microsecondsToSeconds]
    exact div_nonneg (div_nonneg (by linarith) (by norm_num)) (le_of_lt hsi)
  have hpy : pyInt (microsecondsToSeconds (e2 - L) / si) =
      ⌊microsecondsToSeconds (e2 - L) / si⌋ := pyInt_of_nonneg _ hd0
  have hfl0 : 0 ≤ ⌊microsecondsToSeconds (e2 - L) / si⌋ :=
    Int.floor_nonneg.mpr hd0
  rw [hpy] at hi'
  have hile : (i : ℤ) ≤ ⌊microsecondsToSeconds (e2 - L) / si⌋ := by omega
  have hileq : (i : ℚ) ≤ (⌊microsecondsToSeconds (e2 - L) / si⌋ : ℚ) := by
    exact_mod_cast hile
  have hsis : (i : ℚ) * si < microsecondsToSeconds (e2 - L) :=
    lt_of_le_of_lt (mul_le_mul_of_nonneg_right hileq (le_of_lt hsi)) hdiv
  have hms : microsecondsToSeconds (e2 - L) = (e2 - L) / 1000000 := rfl
  rw [hms] at hsis
  simp only [createEmptyDf, if_true, secondsToMicroseconds]
  have : (i : ℚ) * si * 1000000 < e2 - L := by
    have h6 : (0 : ℚ) < 1000000 := by norm_num
    calc (i : ℚ) * si * 1000000 < ((e2 - L) / 1000000) * 1000000 := by
          exact mul_lt_mul_of_pos_right hsis h6
      _ = e2 - L := by field_simp
  nlinarith


/-- C9 counterexample: with a single data row at t = 2000000 microseconds, a
one-second sample interval, and `expected_start` exactly one sample interval
before the data, the front padding lands a synthesized row exactly on the
first data timestamp; filtering the padded result back to the original
[first, last] range yields 2 rows instead of the original 1. -/
theorem dataPadder_roundtrip_counterexample :
    ((dataPadder 1000000 2000000 [⟨2000000, some 1⟩] 1).filter
      (fun r => decide ((2000000 : ℚ) ≤ r.timestamps) &&
        decide (r.timestamps ≤ (2000000 : ℚ)))).length ≠
      ([⟨2000000, some 1⟩] : List Row).length := by decide

/-- C9 amended: for every nonempty dataframe and bounds whose padding spans
are not exact multiples of the sample interval, filtering the output of
`data_padder` back to timestamps within the original
[first_data_timestamp, last_data_timestamp] range yields exactly the original
number of rows; when a padding span is an exact multiple, a synthesized row
lands exactly on the boundary sample and survives the filter (see the
counterexample). -/
theorem dataPadder_roundtrip (expected_start expected_end : ℚ)
    (rows : List Row) (si : ℚ) (hsi : 0 < si) (hne : rows ≠ [])
    (hstart : expected_start < firstDataTimestamp rows →
      (⌊microsecondsToSeconds (firstDataTimestamp rows - expected_start) / si⌋ : ℚ)
          * si <
        microsecondsToSeconds (firstDataTimestamp rows - expected_start))
    (hend : lastDataTimestamp rows < expected_end →
      (⌊microsecondsToSeconds (expected_end - lastDataTimestamp rows) / si⌋ : ℚ)
          * si <
        microsecondsToSeconds (expected_end - lastDataTimestamp rows)) :
    ((dataPadder expected_start expected_end rows si).filter
      (fun r => decide (firstDataTimestamp rows ≤ r.timestamps) &&
        decide (r.timestamps ≤ lastDataTimestamp rows))).length =
      rows.length := by
  simp only [firstDataTimestamp, lastDataTimestamp] at hstart hend ⊢
  have hie : rows.isEmpty = false := by
    simpa [List.isEmpty_iff] using hne
  have hsorted : List.Sorted rowLE (sortRows rows) :=
    List.sorted_insertionSort rowLE rows
  have hFle : ∀ r ∈ rows, ((sortRows rows).map Row.timestamps).headD 0 ≤
      r.timestamps := by
    intro r hr
    exact sorted_headD_le (sortRows rows) hsorted r
      ((List.mem_insertionSort rowLE).mpr hr)
  have hLge : ∀ r ∈ rows, r.timestamps ≤
      ((sortRows rows).map Row.timestamps).getLastD 0 := by
    intro r hr
    exact sorted_le_getLastD (sortRows rows) hsorted r
      ((List.mem_insertionSort rowLE).mpr hr)
  have hrowsp : ∀ r ∈ rows,
      (decide (((sortRows rows).map Row.timestamps).headD 0 ≤ r.timestamps) &&
       decide (r.timestamps ≤
         ((sortRows rows).map Row.timestamps).getLastD 0)) = true := by
    intro r hr
    simp only [Bool.and_eq_true, decide_eq_true_eq]
    exact ⟨hFle r hr, hLge r hr⟩
  by_cases hb1 : expected_start < ((sortRows rows).map Row.timestamps).headD 0
  · have hfrontf : ∀ x ∈ createEmptyDf
        (expected_start - secondsToMicroseconds si) si
        (pyInt (microsecondsToSeconds
          (((sortRows rows).map Row.timestamps).headD 0 - expected_start) / si)
          + 1).toNat false,
        ¬ ((decide (((sortRows rows).map Row.timestamps).headD 0 ≤
            x.timestamps) &&
          decide (x.timestamps ≤
            ((sortRows rows).map Row.timestamps).getLastD 0)) = true) := by
      intro x hx
      have hlt := front_pad_lt expected_start
        (((sortRows rows).map Row.timestamps).headD 0) si hsi hb1
        (hstart hb1) x hx
      simp only [Bool.and_eq_true, decide_eq_true_eq, not_and]
      intro hge _
      linarith
    by_cases hb2 : expected_end >
        ((sortRows rows).map Row.timestamps).getLastD 0
    · have hendf : ∀ x ∈ createEmptyDf
          (expected_end + secondsToMicroseconds si) si
          (pyInt (microsecondsToSeconds
            (expected_end -
              ((sortRows rows).map Row.timestamps).getLastD 0) / si)
            + 1).toNat true,
          ¬ ((decide (((sortRows rows).map Row.timestamps).headD 0 ≤
              x.timestamps) &&
            decide (x.timestamps ≤
              ((sortRows rows).map Row.timestamps).getLastD 0)) = true) := by
        intro x hx
        have hgt := end_pad_gt expected_end
          (((sortRows rows).map Row.timestamps).getLastD 0) si hsi hb2
          (hend hb2) x hx
        simp only [Bool.and_eq_true, decide_eq_true_eq, not_and]
        intro _ hle
        linarith
      have heq : dataPadder expected_start expected_end rows si =
          sortRows ((rows ++ createEmptyDf
            (expected_start - secondsToMicroseconds si) si
            (pyInt (microsecondsToSeconds
              (((sortRows rows).map Row.timestamps).headD 0 - expected_start)
                / si) + 1).toNat false) ++ createEmptyDf
            (expected_end + secondsToMicroseconds si) si
            (pyInt (microsecondsToSeconds
              (expected_end -
                ((sortRows rows).map Row.timestamps).getLastD 0) / si)
              + 1).toNat true) := by
        simp only [dataPadder, hie, Bool.false_eq_true, if_false]
        rw [if_pos hb1, if_pos hb2]
      rw [heq, filter_length_sortRows,
        List.filter_append, List.filter_append,
        List.filter_eq_self.mpr hrowsp,
        List.filter_eq_nil_iff.mpr hfrontf,
        List.filter_eq_nil_iff.mpr hendf]
      simp
    · have heq : dataPadder expected_start expected_end rows si =
          sortRows (rows ++ createEmptyDf
            (expected_start - secondsToMicroseconds si) si
            (pyInt (microsecondsToSeconds
              (((sortRows rows).map Row.timestamps).headD 0 - expected_start)
                / si) + 1).toNat false) := by
        simp only [dataPadder, hie, Bool.false_eq_true, if_false]
        rw [if_pos hb1, if_neg hb2]
      rw [heq, filter_length_sortRows,
        List.filter_append,
        List.filter_eq_self.mpr hrowsp,
        List.filter_eq_nil_iff.mpr hfrontf]
      simp
  · by_cases hb2 : expected_end >
        ((sortRows rows).map Row.timestamps).getLastD 0
    · have hendf : ∀ x ∈ createEmptyDf
          (expected_end + secondsToMicroseconds si) si
          (pyInt (microsecondsToSeconds
            (expected_end -
              ((sortRows rows).map Row.timestamps).getLastD 0) / si)
            + 1).toNat true,
          ¬ ((decide (((sortRows rows).map Row.timestamps).headD 0 ≤
              x.timestamps) &&
            decide (x.timestamps ≤
              ((sortRows rows).map Row.timestamps).getLastD 0)) = true) := by
        intro x hx
        have hgt := end_pad_gt expected_end
          (((sortRows rows).map Row.timestamps).getLastD 0) si hsi hb2
          (hend hb2) x hx
        simp only [Bool.and_eq_true, decide_eq_true_eq, not_and]
        intro _ hle
        linarith
      have heq : dataPadder expected_start expected_end rows si =
          sortRows (rows ++ createEmptyDf
            (expected_end + secondsToMicroseconds si) si
            (pyInt (microsecondsToSeconds
              (expected_end -
                ((sortRows rows).map Row.timestamps).getLastD 0) / si)
              + 1).toNat true) := by
        simp only [dataPadder, hie, Bool.false_eq_true, if_false]
        rw [if_neg hb1, if_pos hb2]
      rw [heq, filter_length_sortRows,
        List.filter_append,
        List.filter_eq_self.mpr hrowsp,
        List.filter_eq_nil_iff.mpr hendf]
      simp
    · have heq : dataPadder expected_start expected_end rows si =
          sortRows rows := by
        simp only [dataPadder, hie, Bool.false_eq_true, if_false]
        rw [if_neg hb1, if_neg hb2]
      rw [heq, filter_length_sortRows,
        List.filter_eq_self.mpr hrowsp]

/-- Closed witness for the C9 amended theorem: a single row at t = 2000000,
padding spans of 1.5 s (front) and 0.3 s (back) that are not exact multiples
of the one-second sample interval, and the filtered padded result keeps
exactly the original row count. -/
theorem dataPadder_roundtrip_witness :
    ((dataPadder 500000 2300000 [⟨2000000, some 1⟩] 1).filter
      (fun r => decide (firstDataTimestamp [⟨2000000, some 1⟩] ≤
          r.timestamps) &&
        decide (r.timestamps ≤
          lastDataTimestamp [⟨2000000, some 1⟩]))).length =
      ([⟨2000000, some 1⟩] : List Row).length :=
  dataPadder_roundtrip 500000 2300000 [⟨2000000, some 1⟩] 1 (by norm_num)
    (by decide) (fun _ => by decide) (fun _ => by decide)

/-- Sorting preserves the number of rows. -/
theorem length_sortRows (l : List Row) : (sortRows l).length = l.length :=
  List.length_insertionSort rowLE l

/-- One recursion step of the gap filler in the divide-and-conquer branch:
with a nonempty frame, missing points detected, and at least 1000 rows, the
result is the sorted concatenation of the two gap-filled halves (with the
gap threshold clamped to the sample interval). -/
theorem gapFillerAux_split_step (fuel : ℕ) (rows : List Row) (si gd : ℚ)
    (hie : rows.isEmpty = false)
    (hexp : (rows.length : ℤ) < pyInt (microsecondsToSeconds
      (((sortRows rows).map Row.timestamps).getLastD 0 -
       ((sortRows rows).map Row.timestamps).headD 0) / si) + 1)
    (hbig : ¬ rows.length < 1000) :
    gapFillerAux (fuel + 1) rows si gd =
      sortRows (gapFillerAux fuel (rows.take (rows.length / 2)) si
          (if gd < si then si else gd) ++
        gapFillerAux fuel (rows.drop (rows.length / 2)) si
          (if gd < si then si else gd)) := by
  simp only [gapFillerAux, hie, Bool.false_eq_true, if_false]
  rw [if_pos hexp, if_neg hbig]

/-- Monotonicity of the C2 timestamp pattern. -/
theorem c2time_mono : ∀ i j : ℕ, i < j → c2time i ≤ c2time j := by
  intro i j hij
  have hc : (i : ℚ) ≤ (j : ℚ) := by exact_mod_cast le_of_lt hij
  have h6 : (0 : ℚ) ≤ 1000000 := by norm_num
  by_cases hi : i < 500 <;> by_cases hj : j < 500
  · simp only [c2time, hi, hj, if_true]
    exact mul_le_mul_of_nonneg_right hc h6
  · simp only [c2time, hi, hj, if_true, if_false]
    exact mul_le_mul_of_nonneg_right (by linarith) h6
  · exact absurd hj (by omega)
  · simp only [c2time, hi, hj, if_false]
    exact mul_le_mul_of_nonneg_right (by linarith) h6

/-- The C2 frame's timestamp column. -/
theorem c2rows_ts : c2rows.map Row.timestamps =
    (List.range c2rows.length).map c2time := by
  simp only [c2rows, List.map_map, List.length_map, List.length_range]
  exact List.map_congr_left (fun a _ => rfl)

/-- The C2 frame has 1001 rows. -/
theorem c2rows_len : c2rows.length = 1001 := by
  simp [c2rows]

/-- The C2 frame is nonempty. -/
theorem c2rows_ne : c2rows ≠ [] := by
  simp [c2rows]

/-- The C2 frame is already sorted, so sorting is the identity on it. -/
theorem c2rows_sort : sortRows c2rows = c2rows :=
  sortRows_sorted_eq c2rows (sortedRows_of_mono c2rows c2time c2time_mono c2rows_ts)

/-- The sorted C2 timestamp column as a mapped range. -/
theorem c2rows_sorted_ts : (sortRows c2rows).map Row.timestamps =
    (List.range 1001).map c2time := by
  rw [c2rows_sort, c2rows_ts, c2rows_len]

/-- The C2 frame has missing points: its duration spans 1011 expected samples
but only 1001 are present. -/
theorem c2rows_expected : (c2rows.length : ℤ) < pyInt (microsecondsToSeconds
    (((sortRows c2rows).map Row.timestamps).getLastD 0 -
     ((sortRows c2rows).map Row.timestamps).headD 0) / 1) + 1 := by
  have hhead : ((sortRows c2rows).map Row.timestamps).headD 0 = c2time 0 := by
    rw [c2rows_sorted_ts]
    exact mapRange_headD c2time 1001 (by norm_num) 0
  have hlast : ((sortRows c2rows).map Row.timestamps).getLastD 0 =
      c2time 1000 := by
    rw [c2rows_sorted_ts]
    exact mapRange_getLastD c2time 1001 (by norm_num) 0
  rw [hhead, hlast, c2rows_len]
  decide

set_option maxRecDepth 8000 in
/-- Evaluation of the divide-and-conquer path on the C2 frame: the split at
row 500 severs the boundary gap, each half is gap-free, and the input comes
back unchanged. -/
theorem c2_split_eval : gapFiller c2rows 1 (1/4) = c2rows := by
  have hie : c2rows.isEmpty = false := by
    simpa [List.isEmpty_iff] using c2rows_ne
  rw [gapFiller, c2rows_len]
  rw [gapFillerAux_split_step 1000 c2rows 1 (1/4) hie c2rows_expected
    (by rw [c2rows_len]; omega)]
  have hgd : (if (1/4 : ℚ) < 1 then (1 : ℚ) else 1/4) = 1 := by norm_num
  rw [hgd, c2rows_len]
  have hhalf : (1001 : ℕ) / 2 = 500 := by norm_num
  rw [hhalf]
  have htake : c2rows.take 500 =
      (List.range 500).map (fun i : ℕ => (⟨c2time i, none⟩ : Row)) := by
    simp only [c2rows]
    rw [← List.map_take, List.take_range]
    norm_num
  have hdrop : c2rows.drop 500 =
      (List.range' 500 501).map (fun i : ℕ => (⟨c2time i, none⟩ : Row)) := by
    simp only [c2rows]
    rw [← List.map_drop, drop_range_eq]
  have htakelen : (c2rows.take 500).length = 500 := by
    rw [htake]
    simp
  have hdroplen : (c2rows.drop 500).length = 501 := by
    rw [hdrop]
    simp
  have h1 : gapFillerAux 1000 (c2rows.take 500) 1 1 = c2rows.take 500 := by
    refine gapFillerAux_progression 999 (c2rows.take 500) 0 1 1 (by norm_num)
      ?_ ?_
    · rw [htake]
      simp only [List.length_map, List.length_range, List.map_map]
      refine List.map_congr_left ?_
      intro a ha
      have halt : a < 500 := List.mem_range.mp ha
      show c2time a = 0 + (a : ℚ) * (1 * 1000000)
      simp only [c2time, halt, if_true]
      ring
    · rw [htake]
      simp
  have h2 : gapFillerAux 1000 (c2rows.drop 500) 1 1 = c2rows.drop 500 := by
    refine gapFillerAux_progression 999 (c2rows.drop 500) 510000000 1 1
      (by norm_num) ?_ ?_
    · rw [hdrop]
      simp only [List.length_map, List.length_range', List.map_map,
        List.range'_eq_map_range]
      refine List.map_congr_left ?_
      intro a ha
      have halt : a < 501 := List.mem_range.mp ha
      show c2time (500 + a) = 510000000 + (a : ℚ) * (1 * 1000000)
      have hge : ¬ (500 + a < 500) := by omega
      simp only [c2time, hge, if_false]
      push_cast
      ring
    · rw [hdrop]
      simp
  rw [h1, h2, List.take_append_drop]
  exact c2rows_sort
/-- Away from the boundary pair (499, 500), consecutive C2 timestamps differ
by exactly one sample interval, so the scan body synthesizes nothing. -/
theorem c2_gapFillBody_nil (i : ℕ) (hi : i < 1000) (hne : i ≠ 499) :
    gapFillBody ((List.range 1001).map c2time) 1 1 i = [] := by
  have hg1 : ((List.range 1001).map c2time).getD i 0 = c2time i :=
    mapRange_getD c2time 1001 i (by omega) 0
  have hg2 : ((List.range 1001).map c2time).getD (i + 1) 0 = c2time (i + 1) :=
    mapRange_getD c2time 1001 (i + 1) (by omega) 0
  have hdiff : c2time (i + 1) - c2time i = 1000000 := by
    by_cases hl : i < 499
    · have h1 : i < 500 := by omega
      have h2 : i + 1 < 500 := by omega
      simp only [c2time, h1, h2, if_true]
      push_cast
      ring
    · have h1 : ¬ i < 500 := by omega
      have h2 : ¬ i + 1 < 500 := by omega
      simp only [c2time, h1, h2, if_false]
      push_cast
      ring
  rw [gapFillBody, hg1, hg2, hdiff]
  norm_num [microsecondsToSeconds]

/-- At the boundary pair the C2 timestamps jump by eleven seconds, so the
scan body synthesizes the ten missing one-second rows. -/
theorem c2_gapFillBody_499 :
    gapFillBody ((List.range 1001).map c2time) 1 1 499 =
      createEmptyDf (c2time 499) 1 10 false := by
  have hg1 : ((List.range 1001).map c2time).getD 499 0 = c2time 499 :=
    mapRange_getD c2time 1001 499 (by omega) 0
  have hg2 : ((List.range 1001).map c2time).getD 500 0 = c2time 500 :=
    mapRange_getD c2time 1001 500 (by omega) 0
  rw [gapFillBody, hg1, hg2]
  have hdiff : c2time 500 - c2time 499 = 11000000 := by decide
  rw [hdiff]
  have hms : microsecondsToSeconds 11000000 = 11 := by
    norm_num [microsecondsToSeconds]
  rw [hms]
  have hpy : pyInt (11 / 1) - 1 = 10 := by decide
  rw [hpy]
  rw [if_pos (by norm_num)]
  rfl

/-- Evaluation of the direct pairwise scan on the C2 frame: the boundary gap
is detected and ten missing-value rows are synthesized, giving 1011 rows. -/
theorem c2_direct_len : (gapFillerDirect c2rows 1 (1/4)).length = 1011 := by
  have hie : c2rows.isEmpty = false := by
    simpa [List.isEmpty_iff] using c2rows_ne
  simp only [gapFillerDirect, hie, Bool.false_eq_true, if_false]
  rw [if_pos c2rows_expected]
  have hgd : (if (1/4 : ℚ) < 1 then (1 : ℚ) else 1/4) = 1 := by norm_num
  simp only [c2rows_sorted_ts, c2rows_len, hgd]
  have h1000 : (1001 : ℕ) - 1 = 1000 := rfl
  simp only [h1000]
  rw [length_sortRows, List.length_append,
    flatMap_range_single (gapFillBody ((List.range 1001).map c2time) 1 1)
      1000 499 (by norm_num) (fun i hi hij => c2_gapFillBody_nil i hi hij),
    c2_gapFillBody_499]
  simp [createEmptyDf, c2rows]

/-- C2 counterexample: on the 1001-row frame `c2rows`, whose only gap has its
two bounding samples on opposite sides of the split point, the
divide-and-conquer path of `gap_filler` and the direct pairwise-diff fill
return different dataframes — the claim's equality fails. -/
theorem gapFiller_split_ne_direct :
    gapFiller c2rows 1 (1/4) ≠ gapFillerDirect c2rows 1 (1/4) := by
  intro h
  have hlen := congrArg List.length h
  rw [c2_split_eval, c2_direct_len, c2rows_len] at hlen
  exact absurd hlen (by norm_num)

/-- C2 amended: for an input above the size threshold the divide-and-conquer
path gap-fills only within each half; a gap whose two bounding samples fall
on opposite sides of the split point is NOT filled.  On `c2rows` the split
path returns the input unchanged (1001 rows) while the direct pairwise-diff
fill synthesizes the ten missing boundary rows (1011 rows). -/
theorem gapFiller_split_misses_boundary_gap :
    gapFiller c2rows 1 (1/4) = c2rows ∧
    (gapFillerDirect c2rows 1 (1/4)).length = c2rows.length + 10 := by
  refine ⟨c2_split_eval, ?_⟩
  rw [c2_direct_len, c2rows_len]

/-- Reversing a mapped range mirrors the index. -/
theorem reverse_map_range (s : ℕ) (F : ℕ → ℚ) :
    ((List.range (s + 1)).map F).reverse =
      (List.range (s + 1)).map (fun i : ℕ => F (s - i)) := by
  apply List.ext_getElem
  · simp
  · intro i h1 h2
    simp only [List.getElem_reverse, List.getElem_map, List.getElem_range,
      List.length_reverse, List.length_map, List.length_range]
    congr 1

/-- C5 counterexample: a validated two-packet analysis with `num_samples = 1`
and the anchor (`best_latency_index`) at the last packet makes
`samples_after = 0`, so the after-range `range(1, 1)` is empty and
`np.vectorize` raises `ValueError`; `update_evenly_sampled_time_array` raises
instead of returning the claimed `num_packets * num_samples`-element array. -/
theorem updateEvenlySampledTimeArray_error_on_last_anchor :
    updateEvenlySampledTimeArray 2 1 1 [10, 20] = none := by decide

/-- Closed form of `update_evenly_sampled_time_array` with a whole number of
samples per packet and a nonempty after-segment: the output is the single
arithmetic progression through the anchor start time with step
`1 / sample_rate`. -/
theorem updateEvenly_formula (rate : ℚ) (m n k : ℕ) (tsa : List ℚ)
    (hm : 1 ≤ m) (hk : k < n) (hlen : tsa.length = n)
    (hafter : 2 ≤ (n - k) * m) :
    updateEvenlySampledTimeArray rate (m : ℚ) k tsa =
      some ((List.range (n * m)).map
        (fun i : ℕ =>
          tsa.getD k 0 + ((i : ℚ) - ((k * m : ℕ) : ℚ)) * (1 / rate))) := by
  have hb : pyInt ((k : ℚ) * (m : ℚ)) = ((k * m : ℕ) : ℤ) := by
    have hcast : ((k : ℚ) * (m : ℚ)) = ((k * m : ℕ) : ℚ) := by push_cast; ring
    rw [hcast, pyInt_natCast]
  have hpr : pyRound (((tsa.length : ℚ) - (k : ℚ)) * (m : ℚ)) =
      (((n - k) * m : ℕ) : ℤ) := by
    have hcast : ((tsa.length : ℚ) - (k : ℚ)) * (m : ℚ) =
        (((n - k) * m : ℕ) : ℚ) := by
      rw [hlen]
      push_cast [Nat.cast_sub (le_of_lt hk)]
      ring
    rw [hcast, pyRound_natCast]
  simp only [updateEvenlySampledTimeArray, hb, hpr]
  rw [if_neg (by omega)]
  congr 1
  have htn1 : ((((k * m : ℕ) : ℤ)) + 1).toNat = k * m + 1 := by omega
  have htn2 : ((((n - k) * m : ℕ) : ℤ) - 1).toNat = (n - k) * m - 1 := by omega
  rw [htn1, htn2]
  have hsplit : n * m = (k * m + 1) + ((n - k) * m - 1) := by
    have hab : k * m + (n - k) * m = n * m := by
      rw [← Nat.add_mul]
      congr 1
      omega
    omega
  rw [hsplit]
  conv_rhs => rw [List.range_add, List.map_append]
  congr 1
  · rw [reverse_map_range (k * m)
      (fun t : ℕ => tsa.getD k 0 - (t : ℚ) * (1 / rate))]
    refine List.map_congr_left ?_
    intro a ha2
    have halt : a ≤ k * m := by
      have := List.mem_range.mp ha2
      omega
    have hc : ((k * m - a : ℕ) : ℚ) = ((k * m : ℕ) : ℚ) - (a : ℚ) := by
      push_cast [Nat.cast_sub halt]
      ring
    show tsa.getD k 0 - ((k * m - a : ℕ) : ℚ) * (1 / rate) = _
    rw [hc]
    ring
  · rw [List.range'_eq_map_range, List.map_map, List.map_map]
    refine List.map_congr_left ?_
    intro a _
    simp only [Function.comp_apply]
    push_cast
    ring

/-- C5 amended: for every analysis passing sensor validation (modelled by the
post-guard core) with positive sample rate, a whole positive number of
samples per packet, an in-range anchor index, a start-time array of one entry
per packet, and a nonempty after-segment
(`(num_packets - best_latency_index) * num_samples` at least 2, i.e., the
anchor is not the last packet with `num_samples = 1`),
`update_evenly_sampled_time_array` returns an array of
`num_packets * num_samples` elements that is strictly ascending and evenly
spaced with constant step `1 / sample_rate_hz`, and whose element at index
`best_latency_index * num_samples` equals the anchor packet's start time
`time_start_array[best_latency_index]`; with an empty after-segment the
source raises `ValueError` instead (see the counterexample). -/
theorem updateEvenlySampledTimeArray_spec (rate : ℚ) (m n k : ℕ)
    (tsa : List ℚ) (hr : 0 < rate) (hm : 1 ≤ m) (hk : k < n)
    (hlen : tsa.length = n) (hafter : 2 ≤ (n - k) * m) :
    ∃ out : List ℚ,
      updateEvenlySampledTimeArray rate (m : ℚ) k tsa = some out ∧
      out.length = n * m ∧
      (∀ i, i < n * m - 1 →
        out.getD (i + 1) 0 - out.getD i 0 = 1 / rate) ∧
      List.Sorted (· < ·) out ∧
      out.getD (k * m) 0 = tsa.getD k 0 := by
  refine ⟨(List.range (n * m)).map
      (fun i : ℕ => tsa.getD k 0 + ((i : ℚ) - ((k * m : ℕ) : ℚ)) * (1 / rate)),
    updateEvenly_formula rate m n k tsa hm hk hlen hafter, ?_, ?_, ?_, ?_⟩
  · simp
  · intro i hi
    rw [mapRange_getD _ _ _ (by omega), mapRange_getD _ _ _ (by omega)]
    push_cast
    ring
  · refine List.pairwise_map.mpr ?_
    refine (List.pairwise_lt_range _).imp ?_
    intro a b hab
    have hq : (a : ℚ) < (b : ℚ) := by exact_mod_cast hab
    have hdt : 0 < 1 / rate := by positivity
    have := mul_lt_mul_of_pos_right
      (sub_lt_sub_right hq ((k * m : ℕ) : ℚ)) hdt
    linarith
  · have hkm : k * m < n * m := (Nat.mul_lt_mul_right (by omega)).mpr hk
    rw [mapRange_getD _ _ _ hkm]
    simp

/-- Closed witness for the C5 amended theorem: two packets, three samples per
packet, sample rate 2 Hz, anchor at packet 1 with start times [10, 20]. -/
theorem updateEvenlySampledTimeArray_spec_witness :
    ∃ out : List ℚ,
      updateEvenlySampledTimeArray 2 ((3 : ℕ) : ℚ) 1 [10, 20] = some out ∧
      out.length = 2 * 3 ∧
      (∀ i, i < 2 * 3 - 1 →
        out.getD (i + 1) 0 - out.getD i 0 = 1 / 2) ∧
      List.Sorted (· < ·) out ∧
      out.getD (1 * 3) 0 = ([10, 20] : List ℚ).getD 1 0 :=
  updateEvenlySampledTimeArray_spec 2 3 2 1 [10, 20] (by norm_num)
    (by norm_num) (by norm_num) rfl (by norm_num)

end ClaimTheorems
